import Mathlib

/-!
# Verification of the LandGoals scripts (Helper.py, SelectTop.py)

A shallow embedding, in Lean 4, of the two Python modules of the
VANatHeritage/LandGoals repository, together with theorems settling the
claims of the specification against the code.

The scripts orchestrate calls into the ArcGIS geoprocessing engine
(arcpy).  The embedding therefore has several layers:

* pure helper routines (`tback`, `GetElapsedTime`, `TabToDict`) are
  translated to pure Lean functions over the data the host engine hands
  them (strings, row lists, the day/second components of a timedelta);
* control flow around fallible engine calls (`garbagePickup`,
  `CleanFeatures`, `CleanClip`, `CleanErase`, and the straight-line
  body of `SelectTopAgr`) is modelled in an `Except` monad: each
  delegated engine call is an oracle value `Except E Unit` supplied as a
  parameter, and the Python `try/except` blocks become explicit matches
  on those outcomes; an operation trace is returned alongside the
  result so that which calls ran, and in what order, is visible;
* the raster pipeline of `SelectTopAgr` (Con, RegionGroup,
  ZonalGeometry, RasterToPolygon, ZonalStatisticsAsTable, Sort,
  CalculateField, Select) is modelled over a finite grid of cells with
  rational cell values, with four-neighbour region grouping defined by
  an iterated-expansion reachability computation.

Machine reals of the scripts (acreage factors, thresholds) are embedded
as exact rationals; none of the settled properties depends on float
rounding.
-/

/- Rational arithmetic must evaluate on the concrete grids used below;
restore the default reducibility of the rational operations for this
file. -/
attribute [local semireducible] Rat.mul Rat.add Rat.sub Rat.inv Rat.ofScientific

namespace LandGoals

/-! ## Helper.py: tback (lines 184-196)

`tback` reads three strings from the host at the moment an exception is
pending: the formatted traceback (`traceback.format_tb(tb)[0]`), the
exception value (`str(sys.exc_info()[1])`), and the engine's severity-2
messages (`arcpy.GetMessages(2)`).  The function is pure in those three
strings; console printing has no effect on the returned value. -/

def tback (tbinfo errInfo arcpyMsgs : String) : List String :=
  let pymsg : String :=
    "PYTHON ERRORS:\nTraceback Info:\n" ++ tbinfo ++ "\nError Info:\n " ++ errInfo
  let msgs : String := "ARCPY ERRORS:\n" ++ arcpyMsgs ++ "\n"
  [pymsg, msgs]

/-! ## Helper.py: GetElapsedTime (lines 153-159)

A Python `timedelta` between two datetimes `t1 <= t2` normalises to a
non-negative `days` component and a `seconds` component with
`0 <= seconds < 86400` (sub-second microseconds are never read by
`GetElapsedTime`).  The function is embedded over those two components.
Python 2 `/` on ints is floor division, i.e. `Nat.div` here. -/

def elapsedDHMS (days seconds : Nat) : Nat × Nat × Nat × Nat :=
  let d := days
  let m := seconds / 60
  let s := seconds % 60
  let h := m / 60
  let m2 := m % 60
  (d, h, m2, s)

def GetElapsedTime (days seconds : Nat) : String :=
  let p := elapsedDHMS days seconds
  toString p.1 ++ " days, " ++ toString p.2.1 ++ " hours, " ++
    toString p.2.2.1 ++ " minutes, " ++ toString p.2.2.2 ++ " seconds"

/-! ## Helper.py: garbagePickup (lines 49-56)

Each element of the list is handed to `arcpy.Delete_management` inside
`try: ... except: pass`.  The oracle `del'` gives the outcome of the
engine's delete call on each element.  The embedding returns the trace
of attempted deletions paired with each attempt's engine outcome; the
whole computation lives in `Except` so that "raises an exception" is
expressible (as an `.error` result). -/

def garbagePickup (del' : α → Except E Unit) :
    List α → Except E (List (α × Except E Unit))
  | [] => .ok []
  | t :: rest =>
    -- try: arcpy.Delete_management(t) except: pass
    let o := del' t
    match garbagePickup del' rest with
    | .ok tr => .ok ((t, o) :: tr)
    | .error e => .error e

/-! ## Helper.py: TabToDict (lines 143-151)

The source iterates an `arcpy.da.SearchCursor` over `[fldKey, fldValue]`
but the loop body reads `sc[0]` and `sc[1]` — subscripts on the cursor
object `sc`, not on the row tuple `row` (which is bound and never
used).  The host's `da.SearchCursor` does not implement item access, so
that expression raises a `TypeError` on the first iteration.  The
embedding models a cursor row as a `K × V` pair and cursor subscripting
as the raising operation it is. -/

def cursorItem (α : Type) (_i : Nat) : Except String α :=
  .error "TypeError: da.SearchCursor object has no attribute __getitem__"

/-- Dictionary assignment `codeDict[key] = val`: later rows override
earlier ones. -/
def dictInsert [DecidableEq K] (k : K) (v : V) (d : K → Option V) : K → Option V :=
  fun x => if x = k then some v else d x

def TabToDictLoop [DecidableEq K] (tab : List (K × V)) (acc : K → Option V) :
    Except String (K → Option V) :=
  match tab with
  | [] => .ok acc
  | _row :: rest =>
    -- key = sc[0]; val = sc[1]  (subscripting the cursor, not the row)
    match cursorItem K 0 with
    | .error e => .error e
    | .ok key =>
      match cursorItem V 1 with
      | .error e => .error e
      | .ok val => TabToDictLoop rest (dictInsert key val acc)

def TabToDict [DecidableEq K] (tab : List (K × V)) : Except String (K → Option V) :=
  TabToDictLoop tab (fun _ => none)

/-- Modelled from the spec: the table-to-dictionary conversion the
docstring of `TabToDict` describes ("Converts two fields in a table to
a dictionary"): each row's key-field value is mapped to that row's
value-field value, later rows overriding earlier ones.  This is what
the code would compute had the loop body read `row[0]` / `row[1]`. -/
def TabToDictSpec [DecidableEq K] (tab : List (K × V)) : K → Option V :=
  tab.foldl (fun acc rw => dictInsert rw.1 rw.2 acc) (fun _ => none)

/-! ## Helper.py: CleanFeatures (lines 58-86)

The control flow around the fallible engine calls.  `FeatEngine` is the
outcome oracle: `repairGeometry k` is the result of the `(k+1)`-th
RepairGeometry call on `inFeats` (call `0` is the one on line 62, call
`k ≥ 1` the one inside the `except` handler after attempt `k` failed);
`multipart k` is the result of MultipartToSinglepart attempt `k`
(`1 ≤ k ≤ 10`, the value of `counter` at that attempt); `copyFeatures`
is the result of the fallback `CopyFeatures_management`.  Attempts are
indexed by attempt number because each interleaved repair may change
the dataset, so outcomes may differ between attempts.

`AddMessage` calls are message-channel writes with no control effect
and are not modelled.  An operation trace (`GeoOp` list, in execution
order) is returned with the result, so the theorems can speak about
which engine calls were made. -/

inductive GeoOp : Type
  | repairGeometry
  | multipartToSinglepart
  | copyFeatures
  | clip
  | erase
  | delete
  deriving DecidableEq, Repr

inductive CFOut : Type
  | converted   -- outFeats was produced by MultipartToSinglepart
  | copied      -- outFeats was produced by the CopyFeatures fallback
  deriving DecidableEq, Repr

structure FeatEngine (E : Type) where
  repairGeometry : Nat → Except E Unit
  multipart : Nat → Except E Unit
  copyFeatures : Except E Unit

/-- The `while counter <= 10` loop of `CleanFeatures`.  `counter` is the
source's loop counter; `rem` is structural-recursion fuel maintained at
`11 - counter` (the loop is entered with `counter = 1`, `rem = 10`, so
the guard `counter ≤ 10` is exactly `rem ≥ 1`, and exactly ten
iterations are possible).  A successful attempt sets `counter = 11`
(modelled by returning); a failed attempt runs RepairGeometry, then
increments `counter`, and when the new counter is 11 runs the
CopyFeatures fallback inside the same iteration. -/
def cleanFeaturesLoop (eng : FeatEngine E) : Nat → Nat → List GeoOp × Except E CFOut
  | _counter, 0 => ([], .ok .copied)  -- while guard false; unreachable from counter = 1
  | counter, rem + 1 =>
    match eng.multipart counter with
    | .ok _ => ([.multipartToSinglepart], .ok .converted)  -- counter = 11, loop exits
    | .error _ =>
      -- except: AddMessage; RepairGeometry; counter += 1; if counter == 11: copy
      match eng.repairGeometry counter with
      | .error e => ([.multipartToSinglepart, .repairGeometry], .error e)
      | .ok _ =>
        if counter + 1 = 11 then
          match eng.copyFeatures with
          | .ok _ =>
            ([.multipartToSinglepart, .repairGeometry, .copyFeatures], .ok .copied)
          | .error e =>
            ([.multipartToSinglepart, .repairGeometry, .copyFeatures], .error e)
        else
          let r := cleanFeaturesLoop eng (counter + 1) rem
          (.multipartToSinglepart :: .repairGeometry :: r.1, r.2)

def CleanFeatures (eng : FeatEngine E) : List GeoOp × Except E CFOut :=
  -- Process: Repair Geometry (line 62)
  match eng.repairGeometry 0 with
  | .error e => ([.repairGeometry], .error e)
  | .ok _ =>
    let r := cleanFeaturesLoop eng 1 10
    (.repairGeometry :: r.1, r.2)

/-! ## Helper.py: CleanClip (88-105) and CleanErase (107-124)

Identical shape: one overlay call (Clip resp. Erase) into a temporary
dataset, `CleanFeatures` on it, then — only when the scratch workspace
is the default `"in_memory"` — a best-effort `garbagePickup` of the
temporary dataset.  `delete` is the outcome of that Delete call. -/

structure ClipEngine (E : Type) extends FeatEngine E where
  clip : Except E Unit
  delete : Except E Unit

structure EraseEngine (E : Type) extends FeatEngine E where
  erase : Except E Unit
  delete : Except E Unit

def CleanClip (eng : ClipEngine E) (scratchGDB : String) :
    List GeoOp × Except E CFOut :=
  match eng.clip with
  | .error e => ([.clip], .error e)
  | .ok _ =>
    let r := CleanFeatures eng.toFeatEngine
    match r.2 with
    | .error e => (.clip :: r.1, .error e)
    | .ok o =>
      if scratchGDB = "in_memory" then
        -- garbagePickup([tmpClip]): attempted; any failure swallowed
        (.clip :: r.1 ++ [.delete], .ok o)
      else
        (.clip :: r.1, .ok o)

def CleanErase (eng : EraseEngine E) (scratchGDB : String) :
    List GeoOp × Except E CFOut :=
  match eng.erase with
  | .error e => ([.erase], .error e)
  | .ok _ =>
    let r := CleanFeatures eng.toFeatEngine
    match r.2 with
    | .error e => (.erase :: r.1, .error e)
    | .ok o =>
      if scratchGDB = "in_memory" then
        -- garbagePickup([tmpErased]): attempted; any failure swallowed
        (.erase :: r.1 ++ [.delete], .ok o)
      else
        (.erase :: r.1, .ok o)

/-! ## Dataset bookkeeping for CleanClip / CleanErase

For the frame-effect claim, a small world model: the list of datasets
newly created by a call, in creation order.  The overlay call creates
`scratchGDB + os.sep + tmp` (the source builds the path with the OS
separator; `/` stands for it here); `CleanFeatures` creates `outFeats`;
`garbagePickup` removes the temporary dataset again when the engine's
delete succeeds (`deleteOk`), and is invoked only when `scratchGDB` is
`"in_memory"`. -/

def worldDelete (t : String) (deleteOk : Bool) (w : List String) : List String :=
  if deleteOk then w.erase t else w

def cleanClipNewDatasets (scratchGDB outFeats : String) (deleteOk : Bool) :
    List String :=
  let tmpClip := scratchGDB ++ "/" ++ "tmpClip"
  let w := [tmpClip]            -- Clip_analysis creates tmpClip
  let w := w ++ [outFeats]      -- CleanFeatures creates outFeats
  if scratchGDB = "in_memory" then worldDelete tmpClip deleteOk w else w

def cleanEraseNewDatasets (scratchGDB outFeats : String) (deleteOk : Bool) :
    List String :=
  let tmpErased := scratchGDB ++ "/" ++ "tmpErased"
  let w := [tmpErased]          -- Erase_analysis creates tmpErased
  let w := w ++ [outFeats]      -- CleanFeatures creates outFeats
  if scratchGDB = "in_memory" then worldDelete tmpErased deleteOk w else w

/-! ## SelectTop.py: the call sequence of SelectTopAgr (lines 26-130)

`SelectTopAgr` is a straight-line sequence of delegated engine calls
with no `try/except` of its own (it calls neither `CleanFeatures` nor
`garbagePickup`).  For the exception-propagation claim it is embedded
as the sequential run of its named calls, in source order; `runSeq`
is monadic sequencing in `Except`: the first failing call aborts the
run with its error. -/

structure STEngine (E : Type) where
  checkOutExtension : Except E Unit        -- line 35
  conFarm : Except E Unit                  -- line 49: Con(in_FarmAgrVal > 80, 1)
  saveFarmRast : Except E Unit             -- line 50
  addFieldRastval : Except E Unit          -- line 54
  calcFieldRastval : Except E Unit         -- line 55
  polygonToRaster : Except E Unit          -- line 57
  conVulnFarm : Except E Unit              -- line 59
  regionGroup : Except E Unit              -- line 63
  saveRegionRast : Except E Unit           -- line 64
  zonalGeometry : Except E Unit            -- line 68
  saveRegionSize : Except E Unit           -- line 69
  conRegionSubset : Except E Unit          -- line 74
  saveRegionSubset : Except E Unit         -- line 75
  rasterToPolygon : Except E Unit          -- line 80
  zonalStatisticsAsTable : Except E Unit   -- line 85
  joinField : Except E Unit                -- line 86
  sortPolys : Except E Unit                -- line 91
  addFieldAcres : Except E Unit            -- line 95
  addFieldCumAcres : Except E Unit         -- line 96
  addFieldSelection : Except E Unit        -- line 97
  calcFieldAcres : Except E Unit           -- line 102
  calcFieldCumAcres : Except E Unit        -- line 110
  calcFieldSelection : Except E Unit       -- line 120
  selectAnalysis : Except E Unit           -- line 125
  checkInExtension : Except E Unit         -- line 127

def selectTopAgrCalls (eng : STEngine E) : List (Except E Unit) :=
  [eng.checkOutExtension, eng.conFarm, eng.saveFarmRast, eng.addFieldRastval,
   eng.calcFieldRastval, eng.polygonToRaster, eng.conVulnFarm, eng.regionGroup,
   eng.saveRegionRast, eng.zonalGeometry, eng.saveRegionSize, eng.conRegionSubset,
   eng.saveRegionSubset, eng.rasterToPolygon, eng.zonalStatisticsAsTable,
   eng.joinField, eng.sortPolys, eng.addFieldAcres, eng.addFieldCumAcres,
   eng.addFieldSelection, eng.calcFieldAcres, eng.calcFieldCumAcres,
   eng.calcFieldSelection, eng.selectAnalysis, eng.checkInExtension]

def runSeq : List (Except E Unit) → Except E Unit
  | [] => .ok ()
  | c :: rest =>
    match c with
    | .error e => .error e
    | .ok _ => runSeq rest

def SelectTopAgrExc (eng : STEngine E) : Except E Unit :=
  runSeq (selectTopAgrCalls eng)

/-! ## SelectTop.py: raster data semantics (lines 38-125)

The data carried through `SelectTopAgr` is modelled over a finite grid
of `nr × nc` cells.  A raster is a partial assignment of values to
cells (`Option ℚ`; `none` is NoData).  The engine operations used by
the script are given their documented semantics:

* `Con(cond, r)` with no else argument keeps `r`'s value where the
  condition holds and yields NoData elsewhere;
* `IsNull` tests NoData;
* `RegionGroup(r, "FOUR")` assigns two non-NoData cells the same region
  exactly when they are joined by a chain of four-neighbour steps
  through non-NoData cells (`vulnFarmRast` is constant 1 on its
  support, so the equal-value condition of RegionGroup is vacuous);
* `ZonalGeometry(r, "VALUE", "AREA")` gives every cell of a zone the
  zone's area, i.e. cell area times the zone's cell count;
* `RasterToPolygon(..., "NO_SIMPLIFY")` emits one polygon per region,
  whose `Shape_Area` is the summed area of the region's cells and whose
  `gridcode` is the region id;
* `ZonalStatisticsAsTable(..., "MEAN")` + `JoinField` attach to each
  polygon the mean of `in_FarmAgrVal` over its region's cells.

Region membership is computed by iterating a one-step neighbourhood
expansion `nr * nc` times from a seed cell, which (shown below) reaches
the fixpoint, i.e. the full connected component. -/

abbrev Cell (nr nc : Nat) := Fin nr × Fin nc

/-- Four-neighbour (rook) adjacency of grid cells. -/
def adj4 (a b : Cell nr nc) : Bool :=
  (a.1 = b.1 && (a.2.val + 1 = b.2.val || b.2.val + 1 = a.2.val)) ||
  (a.2 = b.2 && (a.1.val + 1 = b.1.val || b.1.val + 1 = a.1.val))

theorem adj4_symm (a b : Cell nr nc) : adj4 a b = adj4 b a := by
  simp only [adj4]
  by_cases h1 : a.1 = b.1 <;> by_cases h2 : a.2 = b.2 <;>
    simp [h1, h2, eq_comm, Bool.or_comm]

/-- One step of region growth: add every cell of the mask adjacent to
the current set. -/
def expandStep (mask : Cell nr nc → Bool) (S : Finset (Cell nr nc)) :
    Finset (Cell nr nc) :=
  S ∪ Finset.univ.filter (fun b => mask b = true ∧ ∃ a ∈ S, adj4 a b = true)

def reachSet (mask : Cell nr nc → Bool) (a : Cell nr nc) (n : Nat) :
    Finset (Cell nr nc) :=
  (expandStep mask)^[n] {a}

/-- The four-neighbour connected component of `a` within `mask`
(meaningful when `mask a`): the region that `RegionGroup` assigns `a`
to. -/
def regionComp (mask : Cell nr nc → Bool) (a : Cell nr nc) :
    Finset (Cell nr nc) :=
  if mask a = true then reachSet mask a (nr * nc) else ∅

/-- One four-neighbour step between two cells of the mask. -/
def maskStep (mask : Cell nr nc → Bool) (x y : Cell nr nc) : Prop :=
  mask x = true ∧ mask y = true ∧ adj4 x y = true

/-- `x` and `y` are joined by a chain of four-neighbour steps that
stays inside the cell set `S`. -/
def LinkedIn (S : Finset (Cell nr nc)) (x y : Cell nr nc) : Prop :=
  Relation.ReflTransGen (fun u v => u ∈ S ∧ v ∈ S ∧ adj4 u v = true) x y

section GridLemmas

variable {nr nc : Nat} (mask : Cell nr nc → Bool)

theorem subset_expandStep (S : Finset (Cell nr nc)) : S ⊆ expandStep mask S :=
  Finset.subset_union_left

theorem mem_expandStep {S : Finset (Cell nr nc)} {b : Cell nr nc} :
    b ∈ expandStep mask S ↔
      b ∈ S ∨ (mask b = true ∧ ∃ a ∈ S, adj4 a b = true) := by
  simp [expandStep]

theorem reachSet_succ (a : Cell nr nc) (n : Nat) :
    reachSet mask a (n + 1) = expandStep mask (reachSet mask a n) := by
  simp [reachSet, Function.iterate_succ_apply']

theorem reachSet_subset_succ (a : Cell nr nc) (n : Nat) :
    reachSet mask a n ⊆ reachSet mask a (n + 1) := by
  rw [reachSet_succ]
  exact subset_expandStep mask _

theorem mem_reachSet_self (a : Cell nr nc) (n : Nat) :
    a ∈ reachSet mask a n := by
  induction n with
  | zero => simp [reachSet]
  | succ n ih => exact reachSet_subset_succ mask a n ih

theorem mask_of_mem_reachSet {a : Cell nr nc} (ha : mask a = true) :
    ∀ {n : Nat} {b : Cell nr nc}, b ∈ reachSet mask a n → mask b = true := by
  intro n
  induction n with
  | zero =>
    intro b hb
    simp only [reachSet, Function.iterate_zero, id, Finset.mem_singleton] at hb
    simpa [hb]
  | succ n ih =>
    intro b hb
    rw [reachSet_succ, mem_expandStep] at hb
    rcases hb with hb | ⟨hmb, _⟩
    · exact ih hb
    · exact hmb

/-- Either the reach computation has stabilised after `n` steps, or its
`n`-step set already has more than `n` elements. -/
theorem reachSet_fix_or_card (a : Cell nr nc) :
    ∀ n : Nat, reachSet mask a (n + 1) = reachSet mask a n ∨
      n + 1 ≤ (reachSet mask a (n + 1)).card := by
  intro n
  induction n with
  | zero =>
    right
    have : a ∈ reachSet mask a 1 := mem_reachSet_self mask a 1
    exact Finset.card_pos.mpr ⟨a, this⟩
  | succ n ih =>
    rcases ih with hfix | hcard
    · left
      rw [reachSet_succ, hfix, ← reachSet_succ, hfix]
    · by_cases h : reachSet mask a (n + 2) = reachSet mask a (n + 1)
      · exact Or.inl h
      · right
        have hsub : reachSet mask a (n + 1) ⊆ reachSet mask a (n + 2) :=
          reachSet_subset_succ mask a (n + 1)
        have hss : reachSet mask a (n + 1) ⊂ reachSet mask a (n + 2) :=
          ⟨hsub, fun hba => h (Finset.Subset.antisymm hba hsub)⟩
        have h1 : (reachSet mask a (n + 1)).card < (reachSet mask a (n + 2)).card :=
          Finset.card_lt_card hss
        have h2 : (reachSet mask a (n + 1 + 1)).card = (reachSet mask a (n + 2)).card := rfl
        omega

theorem reachSet_fix_propagate (a : Cell nr nc) {n : Nat}
    (h : reachSet mask a (n + 1) = reachSet mask a n) :
    ∀ m : Nat, n ≤ m → reachSet mask a m = reachSet mask a n := by
  intro m hm
  induction m with
  | zero =>
    have : n = 0 := Nat.le_zero.mp hm
    rw [this]
  | succ m ih =>
    rcases Nat.lt_or_ge n (m + 1) with hlt | hge
    · have hnm : n ≤ m := Nat.lt_succ_iff.mp hlt
      have hrm : reachSet mask a m = reachSet mask a n := ih hnm
      rw [reachSet_succ, hrm, ← reachSet_succ, h]
    · have : n = m + 1 := Nat.le_antisymm hm hge
      rw [this]

/-- After `nr * nc` steps the reach computation is at its fixpoint. -/
theorem expandStep_reachSet_full (a : Cell nr nc) :
    expandStep mask (reachSet mask a (nr * nc)) = reachSet mask a (nr * nc) := by
  rcases reachSet_fix_or_card mask a (nr * nc) with hfix | hcard
  · rw [← reachSet_succ]
    exact hfix
  · exfalso
    have hle : (reachSet mask a (nr * nc + 1)).card ≤ nr * nc := by
      have h1 : (reachSet mask a (nr * nc + 1)).card ≤ Fintype.card (Cell nr nc) :=
        Finset.card_le_univ _
      simpa [Fintype.card_prod] using h1
    omega

/-- Membership in the computed region is exactly reachability through
the mask: the region of `a` is the full four-neighbour connected
component of `a`. -/
theorem mem_regionComp_iff {a : Cell nr nc} (ha : mask a = true)
    {b : Cell nr nc} :
    b ∈ regionComp mask a ↔ Relation.ReflTransGen (maskStep mask) a b := by
  constructor
  · intro hb
    rw [regionComp, if_pos ha] at hb
    revert b
    induction (nr * nc) with
    | zero =>
      intro b hb
      simp only [reachSet, Function.iterate_zero, id, Finset.mem_singleton] at hb
      rw [hb]
    | succ n ih =>
      intro b hb
      rw [reachSet_succ, mem_expandStep] at hb
      rcases hb with hb | ⟨hmb, x, hx, hadj⟩
      · exact ih hb
      · exact Relation.ReflTransGen.tail (ih hx)
          ⟨mask_of_mem_reachSet mask ha hx, hmb, hadj⟩
  · intro hr
    induction hr with
    | refl =>
      rw [regionComp, if_pos ha]
      exact mem_reachSet_self mask a _
    | tail _hxy hstep ih =>
      rw [regionComp, if_pos ha] at ih ⊢
      rw [← expandStep_reachSet_full mask a, mem_expandStep]
      exact Or.inr ⟨hstep.2.1, _, ih, hstep.2.2⟩

theorem mask_of_mem_regionComp {a : Cell nr nc} (ha : mask a = true)
    {b : Cell nr nc} (hb : b ∈ regionComp mask a) : mask b = true := by
  rw [regionComp, if_pos ha] at hb
  exact mask_of_mem_reachSet mask ha hb

theorem maskStep_symm : Symmetric (maskStep mask) := by
  intro x y h
  exact ⟨h.2.1, h.1, by rw [adj4_symm]; exact h.2.2⟩

theorem mem_regionComp_self {a : Cell nr nc} (ha : mask a = true) :
    a ∈ regionComp mask a := by
  rw [mem_regionComp_iff mask ha]

/-- Two cells of one computed region lie in each other's regions:
region assignment is well defined. -/
theorem regionComp_eq_of_mem {a b : Cell nr nc} (ha : mask a = true)
    (hb : b ∈ regionComp mask a) : regionComp mask b = regionComp mask a := by
  have hmb : mask b = true := mask_of_mem_regionComp mask ha hb
  have hab : Relation.ReflTransGen (maskStep mask) a b :=
    (mem_regionComp_iff mask ha).mp hb
  have hba : Relation.ReflTransGen (maskStep mask) b a :=
    Relation.ReflTransGen.symmetric (maskStep_symm mask) hab
  ext c
  rw [mem_regionComp_iff mask ha, mem_regionComp_iff mask hmb]
  constructor
  · exact fun h => Relation.ReflTransGen.trans hab h
  · exact fun h => Relation.ReflTransGen.trans hba h

theorem linkedIn_mono {S T : Finset (Cell nr nc)} (hST : S ⊆ T)
    {x y : Cell nr nc} (h : LinkedIn S x y) : LinkedIn T x y :=
  Relation.ReflTransGen.mono
    (fun _ _ hp => ⟨hST hp.1, hST hp.2.1, hp.2.2⟩) h

theorem linkedIn_reachSet {a : Cell nr nc} :
    ∀ {n : Nat} {b : Cell nr nc}, b ∈ reachSet mask a n →
      LinkedIn (reachSet mask a n) a b := by
  intro n
  induction n with
  | zero =>
    intro b hb
    simp only [reachSet, Function.iterate_zero, id, Finset.mem_singleton] at hb
    rw [hb]
    exact Relation.ReflTransGen.refl
  | succ n ih =>
    intro b hb
    have hsub := reachSet_subset_succ mask a n
    rw [reachSet_succ, mem_expandStep] at hb
    rcases hb with hb | ⟨hmb, x, hx, hadj⟩
    · exact linkedIn_mono hsub (ih hb)
    · refine Relation.ReflTransGen.tail (linkedIn_mono hsub (ih hx)) ?_
      refine ⟨hsub hx, ?_, hadj⟩
      rw [reachSet_succ, mem_expandStep]
      exact Or.inr ⟨hmb, x, hx, hadj⟩

/-- Every computed region is internally four-neighbour connected: any
two of its cells are joined by a chain of adjacent cells that stays in
the region. -/
theorem regionComp_connected {a : Cell nr nc} (ha : mask a = true)
    {x y : Cell nr nc} (hx : x ∈ regionComp mask a) (hy : y ∈ regionComp mask a) :
    LinkedIn (regionComp mask a) x y := by
  rw [regionComp, if_pos ha] at hx hy ⊢
  have h1 : LinkedIn (reachSet mask a (nr * nc)) a x := linkedIn_reachSet mask hx
  have h2 : LinkedIn (reachSet mask a (nr * nc)) a y := linkedIn_reachSet mask hy
  have hsym : Symmetric fun u v : Cell nr nc =>
      u ∈ reachSet mask a (nr * nc) ∧ v ∈ reachSet mask a (nr * nc) ∧
        adj4 u v = true := by
    intro u v h
    exact ⟨h.2.1, h.1, by rw [adj4_symm]; exact h.2.2⟩
  exact Relation.ReflTransGen.trans
    (Relation.ReflTransGen.symmetric hsym h1) h2

end GridLemmas

/-! ## SelectTop.py: the pipeline stages -/

section Pipeline

variable {nr nc : Nat}

/-- Line 49: `farmRast = Con((in_FarmAgrVal > 80), 1)` — 1 where the
agricultural value exceeds 80, NoData elsewhere (including where the
input is NoData). -/
def farmRast (farmVal : Cell nr nc → Option ℚ) (c : Cell nr nc) : Option ℚ :=
  match farmVal c with
  | some v => if 80 < v then some 1 else none
  | none => none

/-- Line 59: `vulnFarmRast = Con((IsNull(elimRast)==1), farmRast)` —
the farm raster where the rasterized conserved lands are NoData,
NoData where they are present.  `consRast` is the output of
`PolygonToRaster_conversion` on `in_ConsLands` (line 57). -/
def vulnFarmRast (farmVal consRast : Cell nr nc → Option ℚ) (c : Cell nr nc) :
    Option ℚ :=
  match consRast c with
  | none => farmRast farmVal c
  | some _ => none

/-- The support of `vulnFarmRast`: the cells `RegionGroup` operates on. -/
def vulnMask (farmVal consRast : Cell nr nc → Option ℚ) (c : Cell nr nc) : Bool :=
  (vulnFarmRast farmVal consRast c).isSome

/-- Lines 63-68: the region of a cell (`RegionGroup(vulnFarmRast,
"FOUR")`) — `vulnFarmRast` is constant 1 on its support, so regions
are plain four-neighbour components of the support. -/
def regionOf (farmVal consRast : Cell nr nc → Option ℚ) (c : Cell nr nc) :
    Finset (Cell nr nc) :=
  regionComp (vulnMask farmVal consRast) c

/-- Line 68: `ZonalGeometry(regionRast, "VALUE", "AREA")` at a cell of
the region raster: area (in square meters) of that cell's zone. -/
def regionSize (farmVal consRast : Cell nr nc → Option ℚ) (cellArea : ℚ)
    (c : Cell nr nc) : ℚ :=
  cellArea * (regionOf farmVal consRast c).card

/-- Line 74: `regionSubset = Con((regionSize >= 80937.1), regionRast)`:
a cell survives when it carries a region and its region's area meets
the 20-acre threshold. -/
def survives (farmVal consRast : Cell nr nc → Option ℚ) (cellArea : ℚ)
    (c : Cell nr nc) : Bool :=
  vulnMask farmVal consRast c &&
    decide (80937.1 ≤ regionSize farmVal consRast cellArea c)

/-- All grid cells, row-major. -/
def cellList (nr nc : Nat) : List (Cell nr nc) :=
  (List.finRange nr).flatMap (fun i => (List.finRange nc).map (fun j => (i, j)))

/-- Line 80: `RasterToPolygon_conversion(regionSubset, ..., "NO_SIMPLIFY")`:
one polygon per remaining region — the distinct regions of the
surviving cells. -/
def regionList (farmVal consRast : Cell nr nc → Option ℚ) (cellArea : ℚ) :
    List (Finset (Cell nr nc)) :=
  (((cellList nr nc).filter (fun c => survives farmVal consRast cellArea c)).map
    (fun c => regionOf farmVal consRast c)).dedup

/-- A row of `regionPolys` after the `JoinField` on line 86: the
polygon's cells, its `Shape_Area`, and the joined zonal `MEAN` of
`in_FarmAgrVal` over its region. -/
structure PolyRow (nr nc : Nat) where
  region : Finset (Cell nr nc)
  shapeArea : ℚ
  mean : ℚ
  deriving DecidableEq

/-- Lines 80-86: polygon attributes of a region.  The polygon is the
union of the region's square cells (`NO_SIMPLIFY`), so `Shape_Area` is
cell area times cell count; `MEAN` is the zonal mean of the
agricultural-value raster over the region. -/
def polyOfRegion (farmVal : Cell nr nc → Option ℚ) (cellArea : ℚ)
    (R : Finset (Cell nr nc)) : PolyRow nr nc :=
  { region := R
    shapeArea := cellArea * R.card
    mean := (∑ c ∈ R, ((farmVal c).getD 0)) / R.card }

def regionPolys (farmVal consRast : Cell nr nc → Option ℚ) (cellArea : ℚ) :
    List (PolyRow nr nc) :=
  (regionList farmVal consRast cellArea).map (polyOfRegion farmVal cellArea)

/-- Line 91: `Sort_management(regionPolys, sortedPolys,
[["MEAN", "DESCENDING"]])`; the sort key relation. -/
def meanDescend (p q : PolyRow nr nc) : Prop := q.mean ≤ p.mean

instance : DecidableRel (@meanDescend nr nc) := fun p q =>
  inferInstanceAs (Decidable (q.mean ≤ p.mean))

instance : IsTotal (PolyRow nr nc) meanDescend :=
  ⟨fun p q => (le_total q.mean p.mean).elim Or.inl Or.inr⟩

instance : IsTrans (PolyRow nr nc) meanDescend :=
  ⟨fun _ _ _ h1 h2 => le_trans h2 h1⟩

def sortedPolys (farmVal consRast : Cell nr nc → Option ℚ) (cellArea : ℚ) :
    List (PolyRow nr nc) :=
  List.insertionSort meanDescend (regionPolys farmVal consRast cellArea)

/-- A row of `sortedPolys` after the three `CalculateField` passes
(lines 100-120). -/
structure CalcRow (nr nc : Nat) extends PolyRow nr nc where
  acres : ℚ
  cumAcres : ℚ
  selection : ℤ
  deriving DecidableEq

/-- Line 102: `ACRES = !Shape_Area! * 0.000247105`, one pass over the
rows. -/
def calcAcres (rows : List (PolyRow nr nc)) : List (PolyRow nr nc × ℚ) :=
  rows.map (fun r => (r, r.shapeArea * 0.000247105))

/-- Lines 104-110: `CUM_ACRES = accumulate(!ACRES!)` with the closure
state `cumVal` starting at 0 and updated row by row in table order. -/
def calcCumAcres (cumVal : ℚ) : List (PolyRow nr nc × ℚ) →
    List (PolyRow nr nc × ℚ × ℚ)
  | [] => []
  | (r, a) :: rest =>
    let cumVal' := cumVal + a
    (r, a, cumVal') :: calcCumAcres cumVal' rest

/-- Lines 112-120: `SELECTION = select(!CUM_ACRES!)`: 1 when
`CUM_ACRES <= 500000`, else 0. -/
def calcSelection (rows : List (PolyRow nr nc × ℚ × ℚ)) : List (CalcRow nr nc) :=
  rows.map (fun (rc : PolyRow nr nc × ℚ × ℚ) =>
    { toPolyRow := rc.1
      acres := rc.2.1
      cumAcres := rc.2.2
      selection := if rc.2.2 ≤ 500000 then 1 else 0 })

/-- The fully calculated, score-sorted table `sortedPolys` as it stands
after line 120. -/
def sortedTable (farmVal consRast : Cell nr nc → Option ℚ) (cellArea : ℚ) :
    List (CalcRow nr nc) :=
  calcSelection (calcCumAcres 0 (calcAcres (sortedPolys farmVal consRast cellArea)))

/-- Line 125: `Select_analysis(sortedPolys, out_Polys, "SELECTION = 1")`:
the rows written to `out_Polys`. -/
def SelectTopAgr (farmVal consRast : Cell nr nc → Option ℚ) (cellArea : ℚ) :
    List (CalcRow nr nc) :=
  (sortedTable farmVal consRast cellArea).filter (fun r => r.selection = 1)

end Pipeline

/-! ## Lemmas about the CleanFeatures retry loop -/

/-- Trace of `n` failed attempts: each failed MultipartToSinglepart is
followed by its RepairGeometry. -/
def failBlocks : Nat → List GeoOp
  | 0 => []
  | n + 1 => .multipartToSinglepart :: .repairGeometry :: failBlocks n

theorem count_failBlocks (n : Nat) :
    (failBlocks n).count GeoOp.multipartToSinglepart = n := by
  induction n with
  | zero => rfl
  | succ n ih => simp [failBlocks, List.count_cons, ih]

theorem except_ok_of_not_error {x : Except E Unit}
    (h : ¬ ∃ e, x = .error e) : x = .ok () := by
  match x with
  | .ok () => rfl
  | .error e => exact absurd ⟨e, rfl⟩ h

section LoopLemmas

variable {E : Type} (eng : FeatEngine E)

/-- If the first succeeding attempt is `K`, the loop runs exactly the
failed attempts before `K` (each with its repair), then the successful
attempt, and stops. -/
theorem cleanFeaturesLoop_success :
    ∀ (rem counter K : Nat), counter + rem = 11 → counter ≤ K → K < counter + rem →
      (∀ j, counter ≤ j → j < K → ∃ e, eng.multipart j = .error e) →
      eng.multipart K = .ok () →
      (∀ j, counter ≤ j → j < K → eng.repairGeometry j = .ok ()) →
      cleanFeaturesLoop eng counter rem =
        (failBlocks (K - counter) ++ [.multipartToSinglepart], .ok .converted) := by
  intro rem
  induction rem with
  | zero =>
    intro counter K _hinv hK1 hK2 _ _ _
    omega
  | succ rem ih =>
    intro counter K hinv hK1 hK2 hfail hok hrep
    rcases Nat.eq_or_lt_of_le hK1 with heq | hlt
    · rw [← heq] at hok
      simp [cleanFeaturesLoop, hok, ← heq, failBlocks]
    · obtain ⟨e, he⟩ := hfail counter le_rfl hlt
      have hr : eng.repairGeometry counter = .ok () := hrep counter le_rfl hlt
      have hne : ¬ counter + 1 = 11 := by omega
      have hrec := ih (counter + 1) K (by omega) hlt (by omega)
        (fun j hj1 hj2 => hfail j (by omega) hj2) hok
        (fun j hj1 hj2 => hrep j (by omega) hj2)
      have hKc : K - counter = (K - (counter + 1)) + 1 := by omega
      simp [cleanFeaturesLoop, he, hr, hne, hrec, hKc, failBlocks]

/-- If all remaining attempts fail (and repairs succeed), the loop runs
all of them, then falls back to CopyFeatures inside the last
iteration. -/
theorem cleanFeaturesLoop_exhaust :
    ∀ (rem counter : Nat), counter + rem = 11 → 1 ≤ rem →
      (∀ j, counter ≤ j → j ≤ 10 → ∃ e, eng.multipart j = .error e) →
      (∀ j, counter ≤ j → j ≤ 10 → eng.repairGeometry j = .ok ()) →
      eng.copyFeatures = .ok () →
      cleanFeaturesLoop eng counter rem =
        (failBlocks rem ++ [.copyFeatures], .ok .copied) := by
  intro rem
  induction rem with
  | zero => omega
  | succ rem ih =>
    intro counter hinv _hrem hfail hrep hcopy
    obtain ⟨e, he⟩ := hfail counter le_rfl (by omega)
    have hr : eng.repairGeometry counter = .ok () := hrep counter le_rfl (by omega)
    by_cases hlast : counter + 1 = 11
    · have : rem = 0 := by omega
      subst this
      simp [cleanFeaturesLoop, he, hr, hlast, hcopy, failBlocks]
    · have hrec := ih (counter + 1) (by omega) (by omega)
        (fun j hj1 hj2 => hfail j (by omega) hj2)
        (fun j hj1 hj2 => hrep j (by omega) hj2) hcopy
      simp [cleanFeaturesLoop, he, hr, hlast, hrec, failBlocks]

/-- A failing RepairGeometry inside the `except` handler aborts the
loop with that error. -/
theorem cleanFeaturesLoop_repair_error {e : E} :
    ∀ (rem counter K : Nat), counter + rem = 11 → counter ≤ K → K < counter + rem →
      (∀ j, counter ≤ j → j ≤ K → ∃ e', eng.multipart j = .error e') →
      (∀ j, counter ≤ j → j < K → eng.repairGeometry j = .ok ()) →
      eng.repairGeometry K = .error e →
      (cleanFeaturesLoop eng counter rem).2 = .error e := by
  intro rem
  induction rem with
  | zero =>
    intro counter K _hinv hK1 hK2 _ _ _
    omega
  | succ rem ih =>
    intro counter K hinv hK1 hK2 hfail hrep hre
    rcases Nat.eq_or_lt_of_le hK1 with heq | hlt
    · obtain ⟨e', he'⟩ := hfail counter le_rfl (by omega)
      rw [← heq] at hre
      simp [cleanFeaturesLoop, he', hre]
    · obtain ⟨e', he'⟩ := hfail counter le_rfl (by omega)
      have hr : eng.repairGeometry counter = .ok () := hrep counter le_rfl hlt
      have hne : ¬ counter + 1 = 11 := by omega
      have hrec := ih (counter + 1) K (by omega) hlt (by omega)
        (fun j hj1 hj2 => hfail j (by omega) hj2)
        (fun j hj1 hj2 => hrep j (by omega) hj2) hre
      simp [cleanFeaturesLoop, he', hr, hne, hrec]

/-- A failing CopyFeatures fallback aborts the loop with that error. -/
theorem cleanFeaturesLoop_copy_error {e : E} :
    ∀ (rem counter : Nat), counter + rem = 11 → 1 ≤ rem →
      (∀ j, counter ≤ j → j ≤ 10 → ∃ e', eng.multipart j = .error e') →
      (∀ j, counter ≤ j → j ≤ 10 → eng.repairGeometry j = .ok ()) →
      eng.copyFeatures = .error e →
      (cleanFeaturesLoop eng counter rem).2 = .error e := by
  intro rem
  induction rem with
  | zero => omega
  | succ rem ih =>
    intro counter hinv _hrem hfail hrep hcopy
    obtain ⟨e', he'⟩ := hfail counter le_rfl (by omega)
    have hr : eng.repairGeometry counter = .ok () := hrep counter le_rfl (by omega)
    by_cases hlast : counter + 1 = 11
    · simp [cleanFeaturesLoop, he', hr, hlast, hcopy]
    · have hrec := ih (counter + 1) (by omega) (by omega)
        (fun j hj1 hj2 => hfail j (by omega) hj2)
        (fun j hj1 hj2 => hrep j (by omega) hj2) hcopy
      simp [cleanFeaturesLoop, he', hr, hlast, hrec]

/-- Whenever all repairs and the copy fallback succeed, `CleanFeatures`
finishes with an `.ok` outcome. -/
theorem cleanFeatures_always_ok
    (hr : ∀ k, eng.repairGeometry k = .ok ())
    (hc : eng.copyFeatures = .ok ()) :
    ∃ o, (CleanFeatures eng).2 = .ok o := by
  classical
  by_cases hall : ∀ j, 1 ≤ j → j ≤ 10 → ∃ e, eng.multipart j = .error e
  · refine ⟨.copied, ?_⟩
    have h := cleanFeaturesLoop_exhaust eng 10 1 (by omega) (by omega) hall
      (fun j _ _ => hr j) hc
    simp [CleanFeatures, hr 0, h]
  · push_neg at hall
    obtain ⟨j0, hj0a, hj0b, hj0c⟩ := hall
    have hex : ∃ j, 1 ≤ j ∧ j ≤ 10 ∧ eng.multipart j = .ok () :=
      ⟨j0, hj0a, hj0b, except_ok_of_not_error (fun ⟨e, he⟩ => hj0c e he)⟩
    set K := Nat.find hex with hKdef
    obtain ⟨hK1, hK2, hKok⟩ := Nat.find_spec hex
    have hbefore : ∀ j, 1 ≤ j → j < K → ∃ e, eng.multipart j = .error e := by
      intro j hj1 hjK
      have := Nat.find_min hex hjK
      by_contra hne
      push_neg at hne
      exact this ⟨hj1, by omega, except_ok_of_not_error (by
        intro ⟨e, he⟩
        exact absurd he (hne e))⟩
    refine ⟨.converted, ?_⟩
    have h := cleanFeaturesLoop_success eng 10 1 K (by omega) hK1 (by omega)
      hbefore hKok (fun j _ _ => hr j)
    simp [CleanFeatures, hr 0, h]

end LoopLemmas

/-! ## Lemmas about the CalculateField passes of SelectTopAgr -/

section Stage2

variable {nr nc : Nat}

/-- Unfolding the three field-calculation passes over one row. -/
theorem stage2_cons (r : PolyRow nr nc) (rest : List (PolyRow nr nc)) (v : ℚ) :
    calcSelection (calcCumAcres v (calcAcres (r :: rest))) =
      { toPolyRow := r
        acres := r.shapeArea * 0.000247105
        cumAcres := v + r.shapeArea * 0.000247105
        selection := if v + r.shapeArea * 0.000247105 ≤ 500000 then 1 else 0 } ::
      calcSelection (calcCumAcres (v + r.shapeArea * 0.000247105) (calcAcres rest)) :=
  rfl

/-- The field calculations neither reorder, drop nor alter the
underlying polygon rows. -/
theorem stage2_map_toPolyRow (rows : List (PolyRow nr nc)) :
    ∀ v : ℚ, (calcSelection (calcCumAcres v (calcAcres rows))).map
      (fun r => r.toPolyRow) = rows := by
  induction rows with
  | nil => intro v; rfl
  | cons r rest ih =>
    intro v
    rw [stage2_cons]
    simp only [List.map_cons, ih]

theorem stage2_selection_formula (rows : List (PolyRow nr nc)) :
    ∀ v : ℚ, ∀ x ∈ calcSelection (calcCumAcres v (calcAcres rows)),
      x.selection = if x.cumAcres ≤ 500000 then 1 else 0 := by
  induction rows with
  | nil => intro v x hx; simp [calcAcres, calcCumAcres, calcSelection] at hx
  | cons r rest ih =>
    intro v x hx
    rw [stage2_cons] at hx
    rcases List.mem_cons.mp hx with hx | hx
    · rw [hx]
    · exact ih (v + r.shapeArea * 0.000247105) x hx

/-- Running sums: `scanAdd v [a, b, ...] = [v + a, v + a + b, ...]`. -/
def scanAdd (v : ℚ) : List ℚ → List ℚ
  | [] => []
  | a :: l => (v + a) :: scanAdd (v + a) l

theorem scanAdd_getD (xs : List ℚ) :
    ∀ (v : ℚ) (i : Nat), i < xs.length →
      (scanAdd v xs).getD i 0 = v + ((xs.take (i + 1)).sum) := by
  induction xs with
  | nil => intro v i h; simp at h
  | cons a l ih =>
    intro v i h
    match i with
    | 0 => simp [scanAdd]
    | i + 1 =>
      show ((v + a) :: scanAdd (v + a) l).getD (i + 1) 0 = _
      rw [List.getD_cons_succ]
      rw [ih (v + a) i (by simpa using h)]
      simp only [List.take_succ_cons, List.sum_cons]
      ring

/-- The `CUM_ACRES` column is the running sum of the `ACRES` column. -/
theorem stage2_cum_map (rows : List (PolyRow nr nc)) :
    ∀ v : ℚ, (calcSelection (calcCumAcres v (calcAcres rows))).map
        (fun r => r.cumAcres) =
      scanAdd v ((calcSelection (calcCumAcres v (calcAcres rows))).map
        (fun r => r.acres)) := by
  induction rows with
  | nil => intro v; rfl
  | cons r rest ih =>
    intro v
    rw [stage2_cons]
    simp only [List.map_cons, scanAdd]
    exact congrArg _ (ih (v + r.shapeArea * 0.000247105))

/-- Every `CUM_ACRES` value is bounded below by the accumulator's
starting value when all areas are non-negative. -/
theorem stage2_cum_lb (rows : List (PolyRow nr nc))
    (hA : ∀ r ∈ rows, 0 ≤ r.shapeArea) :
    ∀ v : ℚ, ∀ x ∈ calcSelection (calcCumAcres v (calcAcres rows)),
      v ≤ x.cumAcres := by
  induction rows with
  | nil => intro v x hx; simp [calcAcres, calcCumAcres, calcSelection] at hx
  | cons r rest ih =>
    intro v x hx
    have hr : 0 ≤ r.shapeArea := hA r (List.mem_cons_self r rest)
    have hstep : v ≤ v + r.shapeArea * 0.000247105 := by
      have h0 : (0 : ℚ) ≤ r.shapeArea * 0.000247105 := by positivity
      linarith
    rw [stage2_cons] at hx
    rcases List.mem_cons.mp hx with hx | hx
    · rw [hx]
      exact hstep
    · exact le_trans hstep
        (ih (fun s hs => hA s (List.mem_cons_of_mem r hs)) _ x hx)

/-- With non-negative areas the `CUM_ACRES` column is non-decreasing
down the table. -/
theorem stage2_cum_pairwise (rows : List (PolyRow nr nc))
    (hA : ∀ r ∈ rows, 0 ≤ r.shapeArea) :
    ∀ v : ℚ, (calcSelection (calcCumAcres v (calcAcres rows))).Pairwise
      (fun a b => a.cumAcres ≤ b.cumAcres) := by
  induction rows with
  | nil => intro v; simp [calcAcres, calcCumAcres, calcSelection]
  | cons r rest ih =>
    intro v
    rw [stage2_cons]
    refine List.Pairwise.cons ?_ (ih (fun s hs => hA s (List.mem_cons_of_mem r hs)) _)
    intro b hb
    exact stage2_cum_lb rest (fun s hs => hA s (List.mem_cons_of_mem r hs)) _ b hb

end Stage2

/-- In a list where the predicate can never become true again after
being false (each earlier element's predicate is implied by any later
element's), filtering equals taking the initial true segment. -/
theorem filter_eq_takeWhile_of_antitone {α : Type} (p : α → Bool) :
    ∀ l : List α, l.Pairwise (fun a b => p b = true → p a = true) →
      l.filter p = l.takeWhile p := by
  intro l
  induction l with
  | nil => intro _; rfl
  | cons a l ih =>
    intro hpw
    rcases List.pairwise_cons.mp hpw with ⟨hhead, htail⟩
    by_cases hpa : p a = true
    · rw [List.filter_cons_of_pos hpa, List.takeWhile_cons_of_pos hpa, ih htail]
    · rw [List.filter_cons_of_neg (by simpa using hpa),
        List.takeWhile_cons_of_neg (by simpa using hpa)]
      rw [List.filter_eq_nil_iff]
      intro b hb
      intro hpb
      exact hpa (hhead b hb hpb)

/-! ## Theorems settling the claims -/

/-- C1: for every run of `SelectTopAgr`, the rows written to
`out_Polys` are exactly those rows of the score-sorted table whose
running cumulative acreage meets the target: the table is sorted by
`MEAN` descending; each row's `CUM_ACRES` is the sum of the `ACRES`
values of that row and all preceding rows; `SELECTION` is 1 iff
`CUM_ACRES <= 500000`; and `out_Polys` holds exactly the rows with
`SELECTION = 1`. -/
theorem selectTopAgr_cumulative_selection (nr nc : Nat)
    (farmVal consRast : Cell nr nc → Option ℚ) (cellArea : ℚ) :
    List.Sorted meanDescend
      ((sortedTable farmVal consRast cellArea).map (fun r => r.toPolyRow)) ∧
    (∀ (i : Nat) (h : i < (sortedTable farmVal consRast cellArea).length),
      ((sortedTable farmVal consRast cellArea).get ⟨i, h⟩).cumAcres =
        (((sortedTable farmVal consRast cellArea).take (i + 1)).map
          (fun r => r.acres)).sum) ∧
    (∀ r ∈ sortedTable farmVal consRast cellArea,
      (r.selection = 1 ↔ r.cumAcres ≤ 500000)) ∧
    SelectTopAgr farmVal consRast cellArea =
      (sortedTable farmVal consRast cellArea).filter (fun r => r.selection = 1) := by
  refine ⟨?_, ?_, ?_, rfl⟩
  · rw [show sortedTable farmVal consRast cellArea =
      calcSelection (calcCumAcres 0 (calcAcres (sortedPolys farmVal consRast cellArea)))
      from rfl, stage2_map_toPolyRow]
    exact List.sorted_insertionSort meanDescend _
  · intro i h
    have h2 := stage2_cum_map (sortedPolys farmVal consRast cellArea) 0
    have hlen : i < ((sortedTable farmVal consRast cellArea).map
        (fun r => r.cumAcres)).length := by simpa using h
    have e1 : ((sortedTable farmVal consRast cellArea).get ⟨i, h⟩).cumAcres =
        ((sortedTable farmVal consRast cellArea).map (fun r => r.cumAcres)).getD i 0 := by
      rw [List.getD_eq_getElem?_getD, List.getElem?_eq_getElem hlen]
      simp
    rw [e1, show ((sortedTable farmVal consRast cellArea).map (fun r => r.cumAcres)) =
        scanAdd 0 ((sortedTable farmVal consRast cellArea).map (fun r => r.acres))
      from h2,
      scanAdd_getD _ 0 i (by simpa using h), zero_add, ← List.map_take]
  · intro r hr
    have hsel := stage2_selection_formula (sortedPolys farmVal consRast cellArea) 0 r hr
    constructor
    · intro h1
      by_contra hc
      rw [if_neg hc] at hsel
      rw [hsel] at h1
      exact absurd h1 (by decide)
    · intro h2
      rw [hsel, if_pos h2]

/-- Concrete inputs for the pipeline witnesses: a single-cell grid
whose cell has agricultural value 90, no conserved lands, and a cell
area of 100000 square meters. -/
def witnessFarmVal : Cell 1 1 → Option ℚ := fun _ => some 90

def witnessConsRast : Cell 1 1 → Option ℚ := fun _ => none

/-- Witness for C1 on the one-cell grid: the single row's `CUM_ACRES`
is the sum of `ACRES` over the first row, and the output is the
`SELECTION = 1` filter of the table. -/
theorem selectTopAgr_cumulative_selection_witness :
    (0 : Nat) < (sortedTable witnessFarmVal witnessConsRast 100000).length ∧
    ((sortedTable witnessFarmVal witnessConsRast 100000).get
        ⟨0, by decide⟩).cumAcres =
      (((sortedTable witnessFarmVal witnessConsRast 100000).take 1).map
        (fun r => r.acres)).sum ∧
    SelectTopAgr witnessFarmVal witnessConsRast 100000 =
      (sortedTable witnessFarmVal witnessConsRast 100000).filter
        (fun r => r.selection = 1) :=
  ⟨by decide,
   (selectTopAgr_cumulative_selection 1 1 witnessFarmVal witnessConsRast
      100000).2.1 0 (by decide),
   (selectTopAgr_cumulative_selection 1 1 witnessFarmVal witnessConsRast
      100000).2.2.2⟩

/-- C10: in every run in which all `Shape_Area` values of the sorted
table are non-negative, `CUM_ACRES` is non-decreasing down the
score-sorted table, `SELECTION` is non-increasing (once a row has
`SELECTION = 0`, every later row has `SELECTION = 0`), and the selected
polygons written to `out_Polys` are an initial segment of the
descending-score order. -/
theorem selectTopAgr_selected_are_first (nr nc : Nat)
    (farmVal consRast : Cell nr nc → Option ℚ) (cellArea : ℚ)
    (hA : ∀ r ∈ sortedTable farmVal consRast cellArea, 0 ≤ r.toPolyRow.shapeArea) :
    (sortedTable farmVal consRast cellArea).Pairwise
      (fun a b => a.cumAcres ≤ b.cumAcres) ∧
    (sortedTable farmVal consRast cellArea).Pairwise
      (fun a b => a.selection = 0 → b.selection = 0) ∧
    SelectTopAgr farmVal consRast cellArea =
      (sortedTable farmVal consRast cellArea).takeWhile
        (fun r => r.selection = 1) := by
  have hrows : ∀ r ∈ sortedPolys farmVal consRast cellArea, 0 ≤ r.shapeArea := by
    intro r hr
    rw [← stage2_map_toPolyRow (sortedPolys farmVal consRast cellArea) 0] at hr
    obtain ⟨x, hx, hxr⟩ := List.mem_map.mp hr
    exact hxr ▸ hA x hx
  have hcum : (sortedTable farmVal consRast cellArea).Pairwise
      (fun a b => a.cumAcres ≤ b.cumAcres) :=
    stage2_cum_pairwise (sortedPolys farmVal consRast cellArea) hrows 0
  have hselform := stage2_selection_formula (sortedPolys farmVal consRast cellArea) 0
  have hsel_iff : ∀ r ∈ sortedTable farmVal consRast cellArea,
      (r.selection = 1 ↔ r.cumAcres ≤ 500000) := by
    intro r hr
    have hf := hselform r hr
    constructor
    · intro h1
      by_contra hc
      rw [if_neg hc] at hf
      rw [hf] at h1
      exact absurd h1 (by decide)
    · intro h2
      rw [hf, if_pos h2]
  refine ⟨hcum, ?_, ?_⟩
  · refine hcum.imp_of_mem ?_
    intro a b ha hb hab h0
    by_cases hbc : b.cumAcres ≤ 500000
    · have hac : a.cumAcres ≤ 500000 := le_trans hab hbc
      have := (hsel_iff a ha).mpr hac
      rw [this] at h0
      exact absurd h0 (by decide)
    · have hf := hselform b hb
      rw [hf, if_neg hbc]
  · rw [show SelectTopAgr farmVal consRast cellArea =
      (sortedTable farmVal consRast cellArea).filter (fun r => r.selection = 1)
      from rfl]
    refine filter_eq_takeWhile_of_antitone _ _ (hcum.imp_of_mem ?_)
    intro a b ha hb hab hpb
    have hb1 : b.selection = 1 := by simpa using hpb
    have hbc : b.cumAcres ≤ 500000 := (hsel_iff b hb).mp hb1
    have hac : a.cumAcres ≤ 500000 := le_trans hab hbc
    simpa using (hsel_iff a ha).mpr hac

/-- Witness for C10 on the one-cell grid. -/
theorem selectTopAgr_selected_are_first_witness :
    (sortedTable witnessFarmVal witnessConsRast 100000).Pairwise
      (fun a b => a.cumAcres ≤ b.cumAcres) ∧
    (sortedTable witnessFarmVal witnessConsRast 100000).Pairwise
      (fun a b => a.selection = 0 → b.selection = 0) ∧
    SelectTopAgr witnessFarmVal witnessConsRast 100000 =
      (sortedTable witnessFarmVal witnessConsRast 100000).takeWhile
        (fun r => r.selection = 1) :=
  selectTopAgr_selected_are_first 1 1 witnessFarmVal witnessConsRast 100000
    (by decide)

theorem vulnMask_spec (farmVal consRast : Cell nr nc → Option ℚ) (x : Cell nr nc) :
    vulnMask farmVal consRast x = true ↔
      (∃ v, farmVal x = some v ∧ 80 < v) ∧ consRast x = none := by
  unfold vulnMask vulnFarmRast farmRast
  cases hc : consRast x with
  | some w => simp [hc]
  | none =>
    cases hf : farmVal x with
    | none => simp [hf]
    | some v =>
      by_cases h80 : (80 : ℚ) < v
      · simp [hf, h80]
      · simp [hf, h80]

/-- C9: every polygon written to `out_Polys` derives from a
four-neighbour connected region of raster cells that all carry an
agricultural value strictly above 80 and lie outside the rasterized
conserved lands, and whose area (cell area times cell count) is at
least 80937.1 square meters.  (Since this holds of every output row,
no polygon failing any of these conditions appears.) -/
theorem selectTopAgr_region_provenance (nr nc : Nat)
    (farmVal consRast : Cell nr nc → Option ℚ) (cellArea : ℚ) :
    ∀ r ∈ SelectTopAgr farmVal consRast cellArea,
      (∀ c ∈ r.region, ∃ v, farmVal c = some v ∧ 80 < v ∧ consRast c = none) ∧
      (∀ x ∈ r.region, ∀ y ∈ r.region, LinkedIn r.region x y) ∧
      80937.1 ≤ cellArea * r.region.card := by
  intro r hr
  have hr1 : r ∈ sortedTable farmVal consRast cellArea := List.mem_of_mem_filter hr
  have hr2 : r.toPolyRow ∈ (sortedTable farmVal consRast cellArea).map
      (fun x => x.toPolyRow) := List.mem_map_of_mem _ hr1
  rw [show (sortedTable farmVal consRast cellArea).map (fun x => x.toPolyRow) =
      sortedPolys farmVal consRast cellArea
    from stage2_map_toPolyRow (sortedPolys farmVal consRast cellArea) 0] at hr2
  have hr3 : r.toPolyRow ∈ regionPolys farmVal consRast cellArea :=
    ((List.perm_insertionSort meanDescend
      (regionPolys farmVal consRast cellArea)).mem_iff).mp hr2
  obtain ⟨R, hR, hpoly⟩ := List.mem_map.mp hr3
  obtain ⟨c, hc, hcR⟩ := List.mem_map.mp (List.mem_dedup.mp hR)
  have hcf := List.mem_filter.mp hc
  have hsurv : survives farmVal consRast cellArea c = true := hcf.2
  have hmask : vulnMask farmVal consRast c = true ∧
      80937.1 ≤ regionSize farmVal consRast cellArea c := by
    simpa [survives, Bool.and_eq_true, decide_eq_true_iff] using hsurv
  have hreg : r.region = regionOf farmVal consRast c := by
    have h1 : r.toPolyRow.region = R := by
      rw [← hpoly]
      rfl
    rw [h1, hcR]
  refine ⟨?_, ?_, ?_⟩
  · intro cc hcc
    rw [hreg] at hcc
    have hm : vulnMask farmVal consRast cc = true :=
      mask_of_mem_regionComp _ hmask.1 hcc
    obtain ⟨⟨v, hv, h80⟩, hcons⟩ := (vulnMask_spec farmVal consRast cc).mp hm
    exact ⟨v, hv, h80, hcons⟩
  · intro x hx y hy
    rw [hreg] at hx hy ⊢
    exact regionComp_connected _ hmask.1 hx hy
  · rw [hreg]
    exact hmask.2

/-- The single output row of the one-cell witness grid. -/
def witnessRow : CalcRow 1 1 :=
  { region := {((0 : Fin 1), (0 : Fin 1))}
    shapeArea := 100000
    mean := 90
    acres := 24.7105
    cumAcres := 24.7105
    selection := 1 }

/-- Witness for C9 on the one-cell grid: its single output polygon is a
one-cell region with value 90 > 80, no conserved overlap, and area
100000 >= 80937.1. -/
theorem selectTopAgr_region_provenance_witness :
    (∀ c ∈ witnessRow.region,
      ∃ v, witnessFarmVal c = some v ∧ 80 < v ∧ witnessConsRast c = none) ∧
    (∀ x ∈ witnessRow.region, ∀ y ∈ witnessRow.region,
      LinkedIn witnessRow.region x y) ∧
    (80937.1 : ℚ) ≤ (100000 : ℚ) * witnessRow.region.card :=
  selectTopAgr_region_provenance 1 1 witnessFarmVal witnessConsRast 100000
    witnessRow (by decide)

/-- C6: for every pending exception — i.e. for every triple of strings
the host hands over (formatted traceback, interpreter error value,
engine severity-2 messages) — `tback` returns a two-element list whose
first element concatenates the traceback information and the error
value under the prefix `PYTHON ERRORS:` and whose second element
concatenates the engine's error messages under the prefix
`ARCPY ERRORS:`. -/
theorem tback_two_messages (tbinfo errInfo arcpyMsgs : String) :
    tback tbinfo errInfo arcpyMsgs =
      ["PYTHON ERRORS:\nTraceback Info:\n" ++ tbinfo ++ "\nError Info:\n " ++ errInfo,
       "ARCPY ERRORS:\n" ++ arcpyMsgs ++ "\n"] ∧
    (tback tbinfo errInfo arcpyMsgs).length = 2 :=
  ⟨rfl, rfl⟩

/-- C8: for every elapsed `timedelta` between datetimes `t1 <= t2`
(non-negative `days`, `seconds` with `0 <= seconds < 86400`;
sub-second microseconds are never read), `GetElapsedTime` renders
`D days, H hours, M minutes, S seconds` where `H < 24`, `M < 60`,
`S < 60` (all values are naturals, hence non-negative) and
`D*86400 + H*3600 + M*60 + S` is exactly the elapsed whole seconds. -/
theorem getElapsedTime_decomposition (days seconds : Nat)
    (h : seconds < 86400) :
    (elapsedDHMS days seconds).2.1 < 24 ∧
    (elapsedDHMS days seconds).2.2.1 < 60 ∧
    (elapsedDHMS days seconds).2.2.2 < 60 ∧
    (elapsedDHMS days seconds).1 * 86400 + (elapsedDHMS days seconds).2.1 * 3600 +
      (elapsedDHMS days seconds).2.2.1 * 60 + (elapsedDHMS days seconds).2.2.2 =
      days * 86400 + seconds ∧
    GetElapsedTime days seconds =
      toString (elapsedDHMS days seconds).1 ++ " days, " ++
        toString (elapsedDHMS days seconds).2.1 ++ " hours, " ++
        toString (elapsedDHMS days seconds).2.2.1 ++ " minutes, " ++
        toString (elapsedDHMS days seconds).2.2.2 ++ " seconds" := by
  refine ⟨?_, ?_, ?_, ?_, rfl⟩
  · simp only [elapsedDHMS]
    omega
  · simp only [elapsedDHMS]
    omega
  · simp only [elapsedDHMS]
    omega
  · simp only [elapsedDHMS]
    omega

/-- Witness for C8 at `days = 2`, `seconds = 3661` (1 h 1 min 1 s). -/
theorem getElapsedTime_decomposition_witness :
    (elapsedDHMS 2 3661).2.1 < 24 ∧
    (elapsedDHMS 2 3661).2.2.1 < 60 ∧
    (elapsedDHMS 2 3661).2.2.2 < 60 ∧
    (elapsedDHMS 2 3661).1 * 86400 + (elapsedDHMS 2 3661).2.1 * 3600 +
      (elapsedDHMS 2 3661).2.2.1 * 60 + (elapsedDHMS 2 3661).2.2.2 =
      2 * 86400 + 3661 ∧
    GetElapsedTime 2 3661 =
      toString (elapsedDHMS 2 3661).1 ++ " days, " ++
        toString (elapsedDHMS 2 3661).2.1 ++ " hours, " ++
        toString (elapsedDHMS 2 3661).2.2.1 ++ " minutes, " ++
        toString (elapsedDHMS 2 3661).2.2.2 ++ " seconds" :=
  getElapsedTime_decomposition 2 3661 (by decide)

/-- C3: for every deletion oracle and every trash list, `garbagePickup`
attempts a deletion for each element in order (the returned trace pairs
every list element, in order, with its engine outcome), individual
failures are discarded and stop nothing, and the function itself never
raises (the result is always `.ok`). -/
theorem garbagePickup_attempts_all (del' : α → Except E Unit) (l : List α) :
    garbagePickup del' l = .ok (l.map (fun t => (t, del' t))) := by
  induction l with
  | nil => rfl
  | cons t rest ih => simp [garbagePickup, ih]

/-- C4 (code bug): on any non-empty table the code raises instead of
building the dictionary: the loop body subscripts the cursor object
(`sc[0]`, `sc[1]`) — the host's `da.SearchCursor` has no item access —
and the row tuple `row` is bound but never read.  At the one-row table
`[(1, 2)]` the code yields a `TypeError` while the documented
conversion (`TabToDictSpec`) maps `1` to `some 2`. -/
theorem tabToDict_raises_on_first_row :
    TabToDict [((1 : ℤ), (2 : ℤ))] =
      .error "TypeError: da.SearchCursor object has no attribute __getitem__" ∧
    TabToDictSpec [((1 : ℤ), (2 : ℤ))] 1 = some 2 := by
  constructor
  · rfl
  · simp [TabToDictSpec, dictInsert]

/-- C2: for every pattern of MultipartToSinglepart outcomes (with the
repair and copy calls themselves succeeding), the conversion is
attempted up to ten times with a RepairGeometry step before every
retry; a success at attempt `K` ends the loop at once with the
converted features and no further attempts, repairs or copies; if all
ten attempts fail, the input is instead copied plainly; and in every
case `CleanFeatures` returns `outFeats` (an `.ok` outcome, converted or
copied). -/
theorem cleanFeatures_retry_policy (eng : FeatEngine E)
    (hr : ∀ k, eng.repairGeometry k = .ok ())
    (hc : eng.copyFeatures = .ok ()) :
    (∀ K, 1 ≤ K → K ≤ 10 →
      (∀ j, 1 ≤ j → j < K → ∃ e, eng.multipart j = .error e) →
      eng.multipart K = .ok () →
      CleanFeatures eng =
        (.repairGeometry :: (failBlocks (K - 1) ++ [.multipartToSinglepart]),
          .ok .converted)) ∧
    ((∀ j, 1 ≤ j → j ≤ 10 → ∃ e, eng.multipart j = .error e) →
      CleanFeatures eng =
        (.repairGeometry :: (failBlocks 10 ++ [.copyFeatures]), .ok .copied)) ∧
    (CleanFeatures eng).1.count .multipartToSinglepart ≤ 10 ∧
    (∃ o, (CleanFeatures eng).2 = .ok o) := by
  classical
  refine ⟨?_, ?_, ?_, cleanFeatures_always_ok eng hr hc⟩
  · intro K hK1 hK2 hbefore hKok
    have h := cleanFeaturesLoop_success eng 10 1 K (by omega) hK1 (by omega)
      hbefore hKok (fun j _ _ => hr j)
    simp [CleanFeatures, hr 0, h]
  · intro hall
    have h := cleanFeaturesLoop_exhaust eng 10 1 (by omega) (by omega) hall
      (fun j _ _ => hr j) hc
    simp [CleanFeatures, hr 0, h]
  · by_cases hall : ∀ j, 1 ≤ j → j ≤ 10 → ∃ e, eng.multipart j = .error e
    · have h := cleanFeaturesLoop_exhaust eng 10 1 (by omega) (by omega) hall
        (fun j _ _ => hr j) hc
      simp [CleanFeatures, hr 0, h, List.count_cons, List.count_append,
        count_failBlocks]
    · push_neg at hall
      obtain ⟨j0, hj0a, hj0b, hj0c⟩ := hall
      have hex : ∃ j, 1 ≤ j ∧ j ≤ 10 ∧ eng.multipart j = .ok () :=
        ⟨j0, hj0a, hj0b, except_ok_of_not_error (fun ⟨e, he⟩ => hj0c e he)⟩
      obtain ⟨hK1, hK2, hKok⟩ := Nat.find_spec hex
      have hbefore : ∀ j, 1 ≤ j → j < Nat.find hex → ∃ e, eng.multipart j = .error e := by
        intro j hj1 hjK
        have hmin := Nat.find_min hex hjK
        by_contra hne
        push_neg at hne
        exact hmin ⟨hj1, by omega,
          except_ok_of_not_error (fun ⟨e, he⟩ => hne e he)⟩
      have h := cleanFeaturesLoop_success eng 10 1 (Nat.find hex) (by omega) hK1
        (by omega) hbefore hKok (fun j _ _ => hr j)
      have hcount : (CleanFeatures eng).1.count GeoOp.multipartToSinglepart =
          (Nat.find hex - 1) + 1 := by
        simp [CleanFeatures, hr 0, h, List.count_cons, List.count_append,
          count_failBlocks]
      rw [hcount]
      omega

/-- Concrete engine for the C2 witness: attempts 1 fails, attempt 2
succeeds, repairs and copy succeed. -/
def cfWitnessEngine : FeatEngine String where
  repairGeometry := fun _ => .ok ()
  multipart := fun k => if k = 2 then .ok () else .error "explosion failed"
  copyFeatures := .ok ()

/-- Witness for C2: with one failed attempt followed by a success, the
trace is repair, failed attempt, repair, successful attempt, and the
outcome is the converted features. -/
theorem cleanFeatures_retry_policy_witness :
    CleanFeatures cfWitnessEngine =
      (.repairGeometry :: (failBlocks (2 - 1) ++ [.multipartToSinglepart]),
        .ok .converted) :=
  (cleanFeatures_retry_policy cfWitnessEngine (fun _ => rfl) rfl).1 2
    (by omega) (by omega)
    (fun j hj1 hj2 => ⟨"explosion failed", by
      have hj : j = 1 := by omega
      rw [hj]
      rfl⟩)
    rfl

theorem runSeq_error_propagates (calls : List (Except E Unit)) :
    ∀ (i : Nat) (e : E), (∀ j, j < i → calls.getD j (.ok ()) = .ok ()) →
      calls.getD i (.ok ()) = .error e → runSeq calls = .error e := by
  induction calls with
  | nil =>
    intro i e _ hi
    simp at hi
  | cons c rest ih =>
    intro i e hbefore hi
    match i with
    | 0 =>
      simp only [List.getD_cons_zero] at hi
      simp [runSeq, hi]
    | i + 1 =>
      have hc : c = .ok () := by
        have := hbefore 0 (Nat.succ_pos i)
        simpa using this
      simp only [List.getD_cons_succ] at hi
      have hrest := ih i e (fun j hj => by
        have := hbefore (j + 1) (Nat.succ_lt_succ hj)
        simpa using this) hi
      simp [runSeq, hc, hrest]

/-- C5: outside the per-element deletion in `garbagePickup` and the
bounded MultipartToSinglepart retry in `CleanFeatures`, nothing catches
exceptions.  For `CleanClip` and `CleanErase`: a failing overlay call
propagates; a failing `CleanFeatures` (whose own unhandled failures are
the initial RepairGeometry, a RepairGeometry inside the retry handler,
and the CopyFeatures fallback) propagates; while a failing scratch
Delete never does.  For `SelectTopAgr`: the first failing call of its
straight-line call sequence aborts the run with exactly that error. -/
theorem unhandled_exceptions_propagate (fe : FeatEngine E) (ce : ClipEngine E)
    (ee : EraseEngine E) (se : STEngine E) (scratch : String) (e : E) :
    -- CleanFeatures: initial RepairGeometry (line 62)
    (fe.repairGeometry 0 = .error e → (CleanFeatures fe).2 = .error e) ∧
    -- CleanFeatures: RepairGeometry inside the except handler (line 78)
    (∀ K, 1 ≤ K → K ≤ 10 →
      (∀ j, 1 ≤ j → j ≤ K → ∃ e', fe.multipart j = .error e') →
      (∀ j, j < K → fe.repairGeometry j = .ok ()) →
      fe.repairGeometry K = .error e →
      (CleanFeatures fe).2 = .error e) ∧
    -- CleanFeatures: CopyFeatures fallback (line 84)
    ((∀ j, 1 ≤ j → j ≤ 10 → ∃ e', fe.multipart j = .error e') →
      (∀ j, fe.repairGeometry j = .ok ()) →
      fe.copyFeatures = .error e →
      (CleanFeatures fe).2 = .error e) ∧
    -- CleanClip: Clip_analysis failure propagates
    (ce.clip = .error e → (CleanClip ce scratch).2 = .error e) ∧
    -- CleanClip: a CleanFeatures failure propagates
    (ce.clip = .ok () → (CleanFeatures ce.toFeatEngine).2 = .error e →
      (CleanClip ce scratch).2 = .error e) ∧
    -- CleanClip: the scratch Delete failure is swallowed (exempt)
    (∀ o, ce.clip = .ok () → (CleanFeatures ce.toFeatEngine).2 = .ok o →
      (CleanClip ce scratch).2 = .ok o) ∧
    -- CleanErase: Erase_analysis failure propagates
    (ee.erase = .error e → (CleanErase ee scratch).2 = .error e) ∧
    -- CleanErase: a CleanFeatures failure propagates
    (ee.erase = .ok () → (CleanFeatures ee.toFeatEngine).2 = .error e →
      (CleanErase ee scratch).2 = .error e) ∧
    -- CleanErase: the scratch Delete failure is swallowed (exempt)
    (∀ o, ee.erase = .ok () → (CleanFeatures ee.toFeatEngine).2 = .ok o →
      (CleanErase ee scratch).2 = .ok o) ∧
    -- SelectTopAgr: the first failing engine call aborts with its error
    (∀ i, (∀ j, j < i → (selectTopAgrCalls se).getD j (.ok ()) = .ok ()) →
      (selectTopAgrCalls se).getD i (.ok ()) = .error e →
      SelectTopAgrExc se = .error e) := by
  refine ⟨?_, ?_, ?_, ?_, ?_, ?_, ?_, ?_, ?_, ?_⟩
  · intro h
    simp [CleanFeatures, h]
  · intro K hK1 hK2 hmp hrep hre
    have h := cleanFeaturesLoop_repair_error fe 10 1 K (by omega) hK1 (by omega)
      (fun j hj1 hj2 => hmp j hj1 hj2) (fun j _ hj2 => hrep j hj2) hre
    simp [CleanFeatures, hrep 0 (by omega), h]
  · intro hmp hrep hcopy
    have h := cleanFeaturesLoop_copy_error fe 10 1 (by omega) (by omega)
      hmp (fun j _ _ => hrep j) hcopy
    simp [CleanFeatures, hrep 0, h]
  · intro h
    simp [CleanClip, h]
  · intro hok herr
    simp [CleanClip, hok, herr]
  · intro o hok hcf
    by_cases hs : scratch = "in_memory" <;> simp [CleanClip, hok, hcf, hs]
  · intro h
    simp [CleanErase, h]
  · intro hok herr
    simp [CleanErase, hok, herr]
  · intro o hok hcf
    by_cases hs : scratch = "in_memory" <;> simp [CleanErase, hok, hcf, hs]
  · intro i hbefore hi
    exact runSeq_error_propagates (selectTopAgrCalls se) i e hbefore hi

/-- Concrete engines for the C5 witness: every call succeeds except
`Clip_analysis`, which fails. -/
def c5WitnessFeat : FeatEngine String where
  repairGeometry := fun _ => .ok ()
  multipart := fun _ => .ok ()
  copyFeatures := .ok ()

def c5WitnessClip : ClipEngine String :=
  { c5WitnessFeat with clip := .error "ERROR 000210", delete := .ok () }

def c5WitnessErase : EraseEngine String :=
  { c5WitnessFeat with erase := .ok (), delete := .ok () }

def c5WitnessST : STEngine String where
  checkOutExtension := .ok ()
  conFarm := .ok ()
  saveFarmRast := .ok ()
  addFieldRastval := .ok ()
  calcFieldRastval := .ok ()
  polygonToRaster := .ok ()
  conVulnFarm := .ok ()
  regionGroup := .ok ()
  saveRegionRast := .ok ()
  zonalGeometry := .ok ()
  saveRegionSize := .ok ()
  conRegionSubset := .ok ()
  saveRegionSubset := .ok ()
  rasterToPolygon := .ok ()
  zonalStatisticsAsTable := .ok ()
  joinField := .ok ()
  sortPolys := .ok ()
  addFieldAcres := .ok ()
  addFieldCumAcres := .ok ()
  addFieldSelection := .ok ()
  calcFieldAcres := .ok ()
  calcFieldCumAcres := .ok ()
  calcFieldSelection := .ok ()
  selectAnalysis := .ok ()
  checkInExtension := .ok ()

/-- Witness for C5: a failing Clip_analysis makes `CleanClip` end with
exactly that engine error. -/
theorem unhandled_exceptions_propagate_witness :
    (CleanClip c5WitnessClip "in_memory").2 = .error "ERROR 000210" :=
  (unhandled_exceptions_propagate c5WitnessFeat c5WitnessClip c5WitnessErase
    c5WitnessST "in_memory" "ERROR 000210").2.2.2.1 rfl

/-- C7 (counterexample): called with a user-specified on-disk scratch
workspace, `CleanClip` does not delete its temporary dataset — the
`garbagePickup` call is guarded by `scratchGDB == "in_memory"` — so
after the call the new datasets are the temporary clip output and
`outFeats`, not `outFeats` alone (even with an engine whose delete
would succeed). -/
theorem cleanClip_disk_scratch_keeps_tmp :
    cleanClipNewDatasets "scratch.gdb" "outFeats" true =
      ["scratch.gdb/tmpClip", "outFeats"] ∧
    cleanClipNewDatasets "scratch.gdb" "outFeats" true ≠ ["outFeats"] ∧
    cleanEraseNewDatasets "scratch.gdb" "outFeats" true =
      ["scratch.gdb/tmpErased", "outFeats"] := by
  refine ⟨by decide, by decide, by decide⟩

/-- C7 (amended): with the default `"in_memory"` scratch workspace the
temporary dataset (`tmpClip` resp. `tmpErased`) is deleted after use
when the engine's best-effort delete succeeds, so that only `outFeats`
remains as a new dataset. -/
theorem cleanClipErase_in_memory_cleanup (outFeats : String) :
    cleanClipNewDatasets "in_memory" outFeats true = [outFeats] ∧
    cleanEraseNewDatasets "in_memory" outFeats true = [outFeats] := by
  constructor
  · simp [cleanClipNewDatasets, worldDelete, List.erase_cons_head]
  · simp [cleanEraseNewDatasets, worldDelete, List.erase_cons_head]

end LandGoals
